import Mathlib

/-!
Shallow embedding of `.github/workflows/spellcheck.py`.

The script defines three functions:
  * `remove_punctuation text` — strips Python `string.punctuation` from `text`
    via `str.translate` with a deletion table built by `str.maketrans`;
  * `spell_check_notebook filepath ignore_words` — parses a notebook, and for
    every markdown cell collects the tokens unknown to a `SpellChecker` model
    seeded with `ignore_words`, keyed by `filepath`;
  * `spell_check_directory directory ignore_words` — walks a directory tree,
    runs `spell_check_notebook` on every `.ipynb` file, aggregates the
    reports, prints them and exits with status 1 when non-empty.

External collaborators (the `pyspellchecker` dictionary, the `nbformat`
parser, `os.walk`) are not part of this repository; following the spec,
which treats them as opaque dependencies, they enter the embedding as
parameters: a `known : String → Bool` dictionary predicate, a
`fs : String → Option Notebook` parsing function (`none` models an IO or
parse error, which the script never catches), and a walk listing of
`(subdir, files)` pairs in the (unspecified) enumeration order of `os.walk`.
-/

/-- The character codes of Python `string.punctuation`, the deletion table
built by `str.maketrans` with two empty arguments and `string.punctuation`:
CPython stores the table as a mapping from code points to `None`, so the
table is faithfully a collection of code points. The 32 codes below are the
ordinals of the 32 ASCII punctuation characters, in the order they occur in
`string.punctuation`. -/
def translator : List Nat :=
  [33, 34, 35, 36, 37, 38, 39, 40, 41, 42, 43, 44, 45, 46, 47,
   58, 59, 60, 61, 62, 63, 64,
   91, 92, 93, 94, 95, 96,
   123, 124, 125, 126]

/-- Python `str.translate` restricted to a deletion-only table, which is the only
use the script makes of it: each character whose code point is in the table
is dropped, every other character is kept unchanged, in order. -/
def str_translate (text : String) (table : List Nat) : String :=
  String.mk (text.toList.filter (fun c => !(table.contains c.toNat)))

/-- The source function: returns the text with every `string.punctuation`
character deleted. -/
def remove_punctuation (text : String) : String :=
  str_translate text translator

/-- From the words of the spec alone: membership in the standard ASCII
punctuation set, the code-point ranges 33–47, 58–64, 91–96 and 123–126.
Used to compare the source definition against the spec contract. -/
def specAsciiPunct (c : Char) : Bool :=
  (decide (33 ≤ c.toNat) && decide (c.toNat ≤ 47)) ||
  (decide (58 ≤ c.toNat) && decide (c.toNat ≤ 64)) ||
  (decide (91 ≤ c.toNat) && decide (c.toNat ≤ 96)) ||
  (decide (123 ≤ c.toNat) && decide (c.toNat ≤ 126))

/-- One notebook cell: a type tag and a text payload, the two fields the
script reads (`cell.cell_type` and `cell.source`). -/
structure Cell where
  cell_type : String
  source : String
deriving DecidableEq

/-- A parsed notebook: the ordered cell sequence (`nb.cells`). -/
structure Notebook where
  cells : List Cell
deriving DecidableEq

/-- Modelled from the spec: the external `pyspellchecker` model, an opaque
collaborator answering is-this-word-known queries. The state is the
predicate itself. -/
structure SpellCheckerModel where
  known : String → Bool

/-- The call `SpellChecker()`: a fresh model over the default dictionary `dict`. -/
def SpellChecker_init (dict : String → Bool) : SpellCheckerModel :=
  ⟨dict⟩

/-- Modelled from the spec: `spell.word_frequency.load_words(words)` bulk
loads `words` into the model, so afterwards a word is known iff it was known
before or occurs in `words`. The word list itself is only read; it is
returned so that the embedding can express that the caller observes it
unchanged. -/
def load_words (sp : SpellCheckerModel) (words : List String) :
    SpellCheckerModel × List String :=
  (⟨fun w => sp.known w || words.contains w⟩, words)

/-- Python `str.split()` with no separator splits on runs of whitespace and
discards empty fragments. (`\x0b` and `\x0c` are vertical tab and form
feed; non-ASCII Unicode whitespace is not modelled, no claim depends on
it.) -/
def isPySpace (c : Char) : Bool :=
  c == ' ' || c == '\t' || c == '\n' || c == '\r' || c == '\x0b' || c == '\x0c'

/-- Word accumulator for `pySplit`: walk the characters, gathering the
current word in reverse in `cur`, emitting it when a whitespace run or the
end of the text is reached; empty fragments are never emitted, which is
Python behaviour for `split()` without a separator. -/
def splitWordsAux : List Char → List Char → List String
  | [], cur => if cur = [] then [] else [String.mk cur.reverse]
  | c :: rest, cur =>
    if isPySpace c then
      if cur = [] then splitWordsAux rest []
      else String.mk cur.reverse :: splitWordsAux rest []
    else splitWordsAux rest (c :: cur)

/-- The call `text.split()` of the source. -/
def pySplit (s : String) : List String :=
  splitWordsAux s.toList []

/-- Modelled from the spec: `spell.unknown(words)` — the set of words of
`words` that the model does not know. -/
def unknown (sp : SpellCheckerModel) (words : List String) : Finset String :=
  (words.filter (fun w => !(sp.known w))).toFinset

/-- The `misspelled_words` dictionary: path keys with set values, in
insertion order. -/
abbrev Report := List (String × Finset String)

/-- Python `d[k]` lookup (`none` when the key is absent, as tested by
`k not in d`). -/
def Report.lookup : Report → String → Option (Finset String)
  | [], _ => none
  | (k0, v0) :: rest, k => if k0 = k then some v0 else Report.lookup rest k

/-- Python `d[k] = v`: replace the value of an existing key in place,
otherwise append the new key at the end. -/
def Report.setKey : Report → String → Finset String → Report
  | [], k, v => [(k, v)]
  | (k0, v0) :: rest, k, v =>
    if k0 = k then (k0, v) :: rest else (k0, v0) :: Report.setKey rest k v

/-- The body of the `for cell in nb.cells` loop of `spell_check_notebook`:
on a markdown cell, strip punctuation, split, query the model; when the
unknown set is non-empty, seed the key with an empty set if absent
(`misspelled_words[filepath] = set()`) and union in the new words
(`misspelled_words[filepath].update(misspelled)`). -/
def checkCell (sp : SpellCheckerModel) (filepath : String) (acc : Report)
    (cell : Cell) : Report :=
  if cell.cell_type = "markdown" then
    let text := remove_punctuation cell.source
    let misspelled := unknown sp (pySplit text)
    if misspelled ≠ ∅ then
      let acc1 := if (Report.lookup acc filepath).isNone
        then Report.setKey acc filepath ∅ else acc
      Report.setKey acc1 filepath
        (((Report.lookup acc1 filepath).getD ∅) ∪ misspelled)
    else acc
  else acc

/-- The function `spell_check_notebook(filepath, ignore_words)`, statement by statement:
build the model, load the ignore words, open and parse the file (an error
is not caught: the `none` branch), then fold the cell loop over the cells.
The second component is the `ignore_words` object as the caller observes it
after the call. -/
def spell_check_notebook (fs : String → Option Notebook)
    (dict : String → Bool) (filepath : String) (ignore_words : List String) :
    Option Report × List String :=
  let spell := SpellChecker_init dict
  let (spell, ignore_words) := load_words spell ignore_words
  match fs filepath with
  | none => (none, ignore_words)
  | some nb => (some (nb.cells.foldl (checkCell spell filepath) []), ignore_words)

/-- Python `os.path.join(subdir, file)` for the names `os.walk` yields: the
directory, a separator, the file name. -/
def os_path_join (a b : String) : String :=
  a ++ "/" ++ b

/-- Python `d.update(other)`: assign every key of `other` into `d`. -/
def Report.updateAll (d : Report) (other : Report) : Report :=
  other.foldl (fun acc kv => Report.setKey acc kv.1 kv.2) d

/-- What `spell_check_directory` leaves behind on the non-error path: the
final `all_misspelled_words` aggregate, the lines printed to standard
output, and the process exit status (1 via `sys.exit(1)`, 0 by returning
normally to the entry point). -/
structure DirOutcome where
  report : Report
  printed : List String
  exitCode : Nat
deriving DecidableEq

/-- One printed line,
`f"Misspelled words in {filepath}: {', '.join(words)}"`. Python iterates
the set in an unspecified order; the embedding renders the words in
lexicographic order as a canonical choice (no claim depends on the order
within a line). -/
def renderLine (filepath : String) (words : Finset String) : String :=
  "Misspelled words in " ++ filepath ++ ": " ++
    String.intercalate ", " (words.sort (fun a b => a ≤ b))

/-- Python `file.endswith(post)`: suffix test, modelled on the character
lists. -/
def pyEndsWith (s post : String) : Bool :=
  List.isSuffixOf post.toList s.toList

/-- The body of the `for file in files` loop of `spell_check_directory`:
on a `.ipynb` file, run `spell_check_notebook` and, when its result is
non-empty, merge it into the aggregate. A `none` state is an uncaught
error already raised: no further statement of the script runs, so the
state passes through unchanged. -/
def walkStep (fs : String → Option Notebook) (dict : String → Bool)
    (subdir : String) (st : Option Report × List String) (file : String) :
    Option Report × List String :=
  match st with
  | (none, ig) => (none, ig)
  | (some acc, ig) =>
    if pyEndsWith file ".ipynb" then
      let filepath := os_path_join subdir file
      let res := spell_check_notebook fs dict filepath ig
      match res.1 with
      | none => (none, res.2)
      | some result =>
        (some (if result ≠ [] then Report.updateAll acc result else acc), res.2)
    else (some acc, ig)

/-- The function `spell_check_directory(directory, ignore_words)`. The `os.walk`
enumeration of `directory` is the parameter `walk`, a list of
`(subdir, files)` pairs. The traversal folds `walkStep` over every file of
every entry starting from an empty aggregate; afterwards, when the
aggregate is non-empty, one line per key is printed and the process exits
with status 1, otherwise nothing is printed and the function returns
(status 0). `none` is an uncaught error from a notebook: the run dies with
no outcome. The second component is the caller-visible `ignore_words`
after the call. -/
def spell_check_directory (fs : String → Option Notebook)
    (dict : String → Bool) (walk : List (String × List String))
    (ignore_words : List String) : Option DirOutcome × List String :=
  let st := walk.foldl
    (fun st entry => entry.2.foldl (walkStep fs dict entry.1) st)
    ((some ([] : Report), ignore_words))
  match st with
  | (none, ig) => (none, ig)
  | (some agg, ig) =>
    if agg ≠ [] then
      (some ⟨agg, agg.map (fun kv => renderLine kv.1 kv.2), 1⟩, ig)
    else
      (some ⟨agg, [], 0⟩, ig)

/-- The spelling model `spell_check_notebook` actually queries: the default
dictionary after `load_words(ignore_words)`. -/
def loadedModel (dict : String → Bool) (ig : List String) : SpellCheckerModel :=
  (load_words (SpellChecker_init dict) ig).1

/-- The unknown set one cell contributes: empty for a non-markdown cell,
otherwise the unknown tokens of its stripped, split source. -/
def cellUnknown (sp : SpellCheckerModel) (cell : Cell) : Finset String :=
  if cell.cell_type = "markdown" then
    unknown sp (pySplit ( remove_punctuation cell.source))
  else ∅

/-- The union of the unknown sets of a cell list. -/
def cellsUnknown (sp : SpellCheckerModel) (cs : List Cell) : Finset String :=
  cs.foldl (fun s c => s ∪ cellUnknown sp c) ∅

/-- The document at `path` holds at least one markdown token that neither
the default dictionary nor the ignore list accepts. -/
def hasMisspelling (fs : String → Option Notebook) (dict : String → Bool)
    (ig : List String) (path : String) : Prop :=
  ∃ nb, fs path = some nb ∧ ∃ cell ∈ nb.cells, cell.cell_type = "markdown" ∧
    ∃ w ∈ pySplit ( remove_punctuation cell.source), dict w = false ∧ w ∉ ig

/-- The traversal part of `spell_check_directory`: the nested fold of
`walkStep` over every file of every walk entry, from an empty aggregate. -/
def dirFold (fs : String → Option Notebook) (dict : String → Bool)
    (walk : List (String × List String)) (ignore_words : List String) :
    Option Report × List String :=
  walk.foldl (fun st entry => entry.2.foldl (walkStep fs dict entry.1) st)
    ((some ([] : Report), ignore_words))

/-- Every key of the report names a document with a genuine misspelling. -/
def GoodReport (fs : String → Option Notebook) (dict : String → Bool)
    (ig : List String) (rep : Report) : Prop :=
  ∀ pr ∈ rep, hasMisspelling fs dict ig pr.1

theorem str_translate_toList (s : String) (t : List Nat) :
    (str_translate s t).toList = s.toList.filter (fun c => !(t.contains c.toNat)) :=
  rfl

theorem contains_translator (c : Char) :
    translator.contains c.toNat = specAsciiPunct c := by
  rw [Bool.eq_iff_iff]
  show List.elem c.toNat translator = true ↔ _
  rw [List.elem_iff]
  simp only [translator, specAsciiPunct, List.mem_cons,
    List.mem_singleton, List.not_mem_nil, or_false, decide_eq_true_eq,
    Bool.or_eq_true, Bool.and_eq_true]
  omega

/-- Claim C1: for every string, `remove_punctuation` is total and removes
exactly the characters of the standard ASCII punctuation set, preserving
every other character in order; the empty string maps to the empty
string. -/
theorem remove_punctuation_exactly_strips_ascii_punct (s : String) :
    ( remove_punctuation s).toList = s.toList.filter (fun c => !(specAsciiPunct c))
    ∧ remove_punctuation "" = "" := by
  constructor
  · rw [show remove_punctuation s = str_translate s translator from rfl,
      str_translate_toList]
    exact List.filter_congr (fun c _ => by rw [contains_translator])
  · rfl

/-- Claim C9: `remove_punctuation` is idempotent. -/
theorem remove_punctuation_idempotent (s : String) :
    remove_punctuation ( remove_punctuation s) = remove_punctuation s := by
  have key : ∀ l : List Char,
      ((l.filter fun c => !(translator.contains c.toNat)).filter
        fun c => !(translator.contains c.toNat))
      = l.filter fun c => !(translator.contains c.toNat) := by
    intro l
    rw [List.filter_filter]
    exact List.filter_congr fun a _ => by simp
  exact String.ext (key s.toList)

theorem checkCell_reportOf (sp : SpellCheckerModel) (path : String)
    (ws : Finset String) (c : Cell) :
    checkCell sp path (if ws = ∅ then [] else [(path, ws)]) c
      = (if ws ∪ cellUnknown sp c = ∅ then []
         else [(path, ws ∪ cellUnknown sp c)]) := by
  unfold checkCell cellUnknown
  by_cases hmd : c.cell_type = "markdown"
  · simp only [hmd, if_true, if_pos rfl]
    by_cases hm : unknown sp (pySplit ( remove_punctuation c.source)) = ∅
    · simp [hm]
    · by_cases hws : ws = ∅
      · simp [hws, hm, Report.lookup, Report.setKey]
      · have hne : ws ∪ unknown sp (pySplit ( remove_punctuation c.source)) ≠ ∅ := by
          simp [Finset.union_eq_empty, hws, hm]
        simp [hws, hm, hne, Report.lookup, Report.setKey]
  · simp [hmd]

theorem foldl_checkCell (sp : SpellCheckerModel) (path : String)
    (cs : List Cell) (ws : Finset String) :
    List.foldl (checkCell sp path) (if ws = ∅ then [] else [(path, ws)]) cs
      = (if cs.foldl (fun s c => s ∪ cellUnknown sp c) ws = ∅ then []
         else [(path, cs.foldl (fun s c => s ∪ cellUnknown sp c) ws)]) := by
  induction cs generalizing ws with
  | nil => rfl
  | cons c cs ih =>
    rw [List.foldl_cons, checkCell_reportOf, ih, List.foldl_cons]

theorem spell_check_notebook_eq (fs : String → Option Notebook)
    (dict : String → Bool) (path : String) (ig : List String) (nb : Notebook)
    (hfs : fs path = some nb) :
    (spell_check_notebook fs dict path ig).1
      = some (if cellsUnknown (loadedModel dict ig) nb.cells = ∅ then []
              else [(path, cellsUnknown (loadedModel dict ig) nb.cells)]) := by
  have h := foldl_checkCell (loadedModel dict ig) path nb.cells ∅
  rw [if_pos rfl] at h
  simp only [spell_check_notebook, load_words, SpellChecker_init, hfs,
    cellsUnknown, loadedModel] at h ⊢
  rw [h]

theorem mem_cellUnknown (sp : SpellCheckerModel) (c : Cell) (w : String) :
    w ∈ cellUnknown sp c ↔
      c.cell_type = "markdown" ∧ w ∈ pySplit ( remove_punctuation c.source)
        ∧ sp.known w = false := by
  unfold cellUnknown unknown
  by_cases h : c.cell_type = "markdown" <;>
    simp [h, List.mem_filter]

theorem mem_foldl_union (sp : SpellCheckerModel) (cs : List Cell)
    (ws : Finset String) (w : String) :
    w ∈ cs.foldl (fun s c => s ∪ cellUnknown sp c) ws ↔
      w ∈ ws ∨ ∃ c ∈ cs, w ∈ cellUnknown sp c := by
  induction cs generalizing ws with
  | nil => simp
  | cons c cs ih =>
    rw [List.foldl_cons, ih]
    constructor
    · rintro (h | h)
      · rcases Finset.mem_union.mp h with h | h
        · exact Or.inl h
        · exact Or.inr ⟨c, List.mem_cons_self c cs, h⟩
      · rcases h with ⟨c2, hc2, hw⟩
        exact Or.inr ⟨c2, List.mem_cons_of_mem c hc2, hw⟩
    · rintro (h | ⟨c2, hc2, hw⟩)
      · exact Or.inl (Finset.mem_union_left _ h)
      · rcases List.mem_cons.mp hc2 with rfl | hc2
        · exact Or.inl (Finset.mem_union_right _ hw)
        · exact Or.inr ⟨c2, hc2, hw⟩

theorem mem_cellsUnknown (sp : SpellCheckerModel) (cs : List Cell) (w : String) :
    w ∈ cellsUnknown sp cs ↔ ∃ c ∈ cs, w ∈ cellUnknown sp c := by
  rw [cellsUnknown, mem_foldl_union]
  simp

theorem loadedModel_known (dict : String → Bool) (ig : List String) (w : String) :
    (loadedModel dict ig).known w = (dict w || ig.contains w) := rfl

/-- Claim C2: for a document of one markdown cell with source
"Helllo wrold", checked with an empty ignore list, against any default
dictionary knowing neither token, the returned mapping sends the document
path to exactly that pair of tokens. -/
theorem spell_check_notebook_helllo_wrold (fs : String → Option Notebook)
    (dict : String → Bool) (path : String)
    (hfs : fs path = some ⟨[⟨"markdown", "Helllo wrold"⟩]⟩)
    (h1 : dict "Helllo" = false) (h2 : dict "wrold" = false) :
    (spell_check_notebook fs dict path []).1
      = some [(path, ({"Helllo", "wrold"} : Finset String))] := by
  rw [spell_check_notebook_eq fs dict path [] _ hfs]
  have htok : pySplit ( remove_punctuation "Helllo wrold") = ["Helllo", "wrold"] := by
    rfl
  have hcu : cellsUnknown (loadedModel dict [])
      (Notebook.mk [⟨"markdown", "Helllo wrold"⟩]).cells
      = ({"Helllo", "wrold"} : Finset String) := by
    simp [cellsUnknown, cellUnknown, unknown, htok, loadedModel, load_words,
      SpellChecker_init, h1, h2, Finset.filter_eq_self, Finset.mem_insert,
      Finset.mem_singleton]
  rw [hcu, if_neg (by simp)]

theorem spell_check_notebook_helllo_wrold_witness :
    (spell_check_notebook (fun _ => some ⟨[⟨"markdown", "Helllo wrold"⟩]⟩)
      (fun _ => false) "nb.ipynb" []).1
      = some [("nb.ipynb", ({"Helllo", "wrold"} : Finset String))] :=
  spell_check_notebook_helllo_wrold _ _ _ rfl rfl rfl

/-- Claim C3: a document with no markdown cell yields an empty mapping,
whatever the other cells contain. -/
theorem spell_check_notebook_no_markdown (fs : String → Option Notebook)
    (dict : String → Bool) (path : String) (ig : List String) (nb : Notebook)
    (hfs : fs path = some nb)
    (hmd : ∀ cell ∈ nb.cells, cell.cell_type ≠ "markdown") :
    (spell_check_notebook fs dict path ig).1 = some [] := by
  rw [spell_check_notebook_eq fs dict path ig nb hfs]
  have h : cellsUnknown (loadedModel dict ig) nb.cells = ∅ := by
    rw [Finset.eq_empty_iff_forall_not_mem]
    intro w hw
    rw [mem_cellsUnknown] at hw
    rcases hw with ⟨c, hc, hw⟩
    rw [mem_cellUnknown] at hw
    exact hmd c hc hw.1
  rw [h, if_pos rfl]

theorem spell_check_notebook_no_markdown_witness :
    (spell_check_notebook
      (fun _ => some ⟨[⟨"code", "impot xyzzy"⟩, ⟨"raw", "qqqq"⟩]⟩)
      (fun _ => false) "nb.ipynb" []).1 = some [] :=
  spell_check_notebook_no_markdown _ _ _ _ _ rfl (by decide)

/-- Claim C4: when every token of every markdown cell occurs in the ignore
list, the mapping is empty. -/
theorem spell_check_notebook_all_ignored (fs : String → Option Notebook)
    (dict : String → Bool) (path : String) (ig : List String) (nb : Notebook)
    (hfs : fs path = some nb)
    (hig : ∀ cell ∈ nb.cells, cell.cell_type = "markdown" →
      ∀ w ∈ pySplit ( remove_punctuation cell.source), w ∈ ig) :
    (spell_check_notebook fs dict path ig).1 = some [] := by
  rw [spell_check_notebook_eq fs dict path ig nb hfs]
  have h : cellsUnknown (loadedModel dict ig) nb.cells = ∅ := by
    rw [Finset.eq_empty_iff_forall_not_mem]
    intro w hw
    rw [mem_cellsUnknown] at hw
    rcases hw with ⟨c, hc, hw⟩
    rw [mem_cellUnknown] at hw
    rcases hw with ⟨hmd, htok, hkn⟩
    rw [loadedModel_known] at hkn
    have : ig.contains w = true := List.elem_iff.mpr (hig c hc hmd w htok)
    rw [this, Bool.or_true] at hkn
    cases hkn
  rw [h, if_pos rfl]

theorem spell_check_notebook_all_ignored_witness :
    (spell_check_notebook
      (fun _ => some ⟨[⟨"markdown", "helllo wrold"⟩]⟩)
      (fun _ => false) "nb.ipynb" ["helllo", "wrold"]).1 = some [] :=
  spell_check_notebook_all_ignored _ _ _ _ _ rfl (by decide)

/-- Claim C10: the mapping returned by `spell_check_notebook` has at most
one key; a present key equals the filepath argument and its value set is
never empty. -/
theorem spell_check_notebook_at_most_one_key (fs : String → Option Notebook)
    (dict : String → Bool) (path : String) (ig : List String) (rep : Report)
    (h : (spell_check_notebook fs dict path ig).1 = some rep) :
    rep = [] ∨ ∃ ws, rep = [(path, ws)] ∧ ws ≠ ∅ := by
  cases hfs : fs path with
  | none => simp [spell_check_notebook, load_words, SpellChecker_init, hfs] at h
  | some nb =>
    rw [spell_check_notebook_eq fs dict path ig nb hfs] at h
    injection h with h
    by_cases hcu : cellsUnknown (loadedModel dict ig) nb.cells = ∅
    · rw [hcu, if_pos rfl] at h
      exact Or.inl h.symm
    · rw [if_neg hcu] at h
      exact Or.inr ⟨_, h.symm, hcu⟩

theorem spell_check_notebook_at_most_one_key_witness :
    ([] : Report) = [] ∨ ∃ ws, ([] : Report) = [("p", ws)] ∧ ws ≠ ∅ :=
  spell_check_notebook_at_most_one_key (fun _ => some ⟨[]⟩) (fun _ => false)
    "p" [] [] rfl

theorem spell_check_notebook_snd (fs : String → Option Notebook)
    (dict : String → Bool) (path : String) (ig : List String) :
    (spell_check_notebook fs dict path ig).2 = ig := by
  cases h : fs path <;>
    simp [spell_check_notebook, load_words, SpellChecker_init, h]

theorem spell_check_notebook_fst_none (fs : String → Option Notebook)
    (dict : String → Bool) (path : String) (ig : List String) :
    (spell_check_notebook fs dict path ig).1 = none ↔ fs path = none := by
  cases h : fs path <;>
    simp [spell_check_notebook, load_words, SpellChecker_init, h]

theorem walkStep_snd (fs : String → Option Notebook) (dict : String → Bool)
    (subdir : String) (st : Option Report × List String) (file : String) :
    (walkStep fs dict subdir st file).2 = st.2 := by
  rcases st with ⟨acc, ig⟩
  cases acc with
  | none => rfl
  | some acc =>
    simp only [walkStep]
    by_cases hf : pyEndsWith file ".ipynb"
    · simp only [hf, if_true]
      have h2 := spell_check_notebook_snd fs dict (os_path_join subdir file) ig
      cases hr : (spell_check_notebook fs dict (os_path_join subdir file) ig).1 <;>
        simp_all
    · simp [hf]

theorem foldl_walkStep_snd (fs : String → Option Notebook)
    (dict : String → Bool) (subdir : String) (files : List String)
    (st : Option Report × List String) :
    (files.foldl (walkStep fs dict subdir) st).2 = st.2 := by
  induction files generalizing st with
  | nil => rfl
  | cons f files ih => rw [List.foldl_cons, ih, walkStep_snd]

theorem foldl_entries_snd (fs : String → Option Notebook)
    (dict : String → Bool) (walk : List (String × List String))
    (st : Option Report × List String) :
    (walk.foldl (fun st entry => entry.2.foldl (walkStep fs dict entry.1) st)
      st).2 = st.2 := by
  induction walk generalizing st with
  | nil => rfl
  | cons e walk ih => rw [List.foldl_cons, ih, foldl_walkStep_snd]

theorem walkStep_none (fs : String → Option Notebook) (dict : String → Bool)
    (subdir : String) (ig : List String) (file : String) :
    walkStep fs dict subdir (none, ig) file = (none, ig) := rfl

theorem foldl_walkStep_none (fs : String → Option Notebook)
    (dict : String → Bool) (subdir : String) (files : List String)
    (ig : List String) :
    files.foldl (walkStep fs dict subdir) (none, ig) = (none, ig) := by
  induction files with
  | nil => rfl
  | cons f files ih => rw [List.foldl_cons, walkStep_none, ih]

theorem foldl_entries_none (fs : String → Option Notebook)
    (dict : String → Bool) (walk : List (String × List String))
    (ig : List String) :
    walk.foldl (fun st entry => entry.2.foldl (walkStep fs dict entry.1) st)
      (none, ig) = (none, ig) := by
  induction walk with
  | nil => rfl
  | cons e walk ih => rw [List.foldl_cons, foldl_walkStep_none, ih]

theorem walkStep_not_ipynb (fs : String → Option Notebook)
    (dict : String → Bool) (subdir : String)
    (st : Option Report × List String) (file : String)
    (hf : pyEndsWith file ".ipynb" = false) :
    walkStep fs dict subdir st file = st := by
  rcases st with ⟨acc, ig⟩
  cases acc with
  | none => rfl
  | some acc => simp [walkStep, hf]

theorem foldl_walkStep_err (fs : String → Option Notebook)
    (dict : String → Bool) (subdir : String) (files : List String)
    (file : String) (hf : file ∈ files)
    (hext : pyEndsWith file ".ipynb" = true)
    (herr : fs (os_path_join subdir file) = none) :
    ∀ st, (files.foldl (walkStep fs dict subdir) st).1 = none := by
  intro st
  rcases List.append_of_mem hf with ⟨l1, l2, rfl⟩
  rw [List.foldl_append, List.foldl_cons]
  rcases hmid : l1.foldl (walkStep fs dict subdir) st with ⟨acc, ig⟩
  cases acc with
  | none => rw [walkStep_none, foldl_walkStep_none]
  | some acc =>
    have hnb : (spell_check_notebook fs dict (os_path_join subdir file) ig).1
        = none := (spell_check_notebook_fst_none _ _ _ _).mpr herr
    have hstep : walkStep fs dict subdir (some acc, ig) file
        = (none, (spell_check_notebook fs dict (os_path_join subdir file) ig).2) := by
      simp only [walkStep, hext, if_true]
      rw [show (spell_check_notebook fs dict (os_path_join subdir file) ig)
          = (none, (spell_check_notebook fs dict (os_path_join subdir file) ig).2) from
            Prod.ext hnb rfl]
    rw [hstep, foldl_walkStep_none]

theorem spell_check_directory_eq (fs : String → Option Notebook)
    (dict : String → Bool) (walk : List (String × List String))
    (ig : List String) :
    spell_check_directory fs dict walk ig
      = match dirFold fs dict walk ig with
        | (none, ig2) => (none, ig2)
        | (some agg, ig2) =>
          if agg ≠ [] then
            (some ⟨agg, agg.map (fun kv => renderLine kv.1 kv.2), 1⟩, ig2)
          else (some ⟨agg, [], 0⟩, ig2) := rfl

theorem dirFold_no_ipynb (fs : String → Option Notebook)
    (dict : String → Bool) (walk : List (String × List String))
    (ig : List String)
    (h : ∀ entry ∈ walk, ∀ f ∈ entry.2, pyEndsWith f ".ipynb" = false) :
    dirFold fs dict walk ig = (some [], ig) := by
  have hin : ∀ (subdir : String) (files : List String)
      (st : Option Report × List String),
      (∀ f ∈ files, pyEndsWith f ".ipynb" = false) →
      files.foldl (walkStep fs dict subdir) st = st := by
    intro subdir files
    induction files with
    | nil => intro st _; rfl
    | cons f files ih =>
      intro st hall
      rw [List.foldl_cons,
        walkStep_not_ipynb fs dict subdir st f (hall f (List.mem_cons_self _ _))]
      exact ih st (fun g hg => hall g (List.mem_cons_of_mem _ hg))
  unfold dirFold
  induction walk with
  | nil => rfl
  | cons e walk ih =>
    rw [List.foldl_cons, hin e.1 e.2 _ (h e (List.mem_cons_self _ _))]
    exact ih (fun e2 he2 => h e2 (List.mem_cons_of_mem _ he2))

/-- Claim C8: neither function mutates the ignore-word collection: after
either call the caller observes the same list it passed in. -/
theorem ignore_words_never_mutated (fs : String → Option Notebook)
    (dict : String → Bool) (path : String)
    (walk : List (String × List String)) (ig : List String) :
    (spell_check_notebook fs dict path ig).2 = ig
    ∧ (spell_check_directory fs dict walk ig).2 = ig := by
  refine ⟨spell_check_notebook_snd fs dict path ig, ?_⟩
  have hsnd : (dirFold fs dict walk ig).2 = ig :=
    foldl_entries_snd fs dict walk (some ([] : Report), ig)
  rw [spell_check_directory_eq]
  rcases hd : dirFold fs dict walk ig with ⟨acc, ig2⟩
  rw [hd] at hsnd
  cases acc with
  | none => exact hsnd
  | some agg =>
    by_cases hne : agg ≠ [] <;> simp [hne] <;> exact hsnd

/-- Claim C5: on the non-error path, when the aggregate is non-empty the
walker prints exactly one line per document, of the documented form, and
exits with status 1; when the aggregate is empty — in particular when no
file of the tree ends in ".ipynb" — it prints nothing and the process ends
with status 0; no other exit status occurs. -/
theorem spell_check_directory_outcome (fs : String → Option Notebook)
    (dict : String → Bool) (walk : List (String × List String))
    (ig : List String) (out : DirOutcome)
    (h : (spell_check_directory fs dict walk ig).1 = some out) :
    (out.report = [] → out.printed = [] ∧ out.exitCode = 0)
    ∧ (out.report ≠ [] →
        out.printed = out.report.map (fun kv => renderLine kv.1 kv.2)
        ∧ out.printed.length = out.report.length ∧ out.exitCode = 1)
    ∧ (out.exitCode = 0 ∨ out.exitCode = 1)
    ∧ ((∀ entry ∈ walk, ∀ f ∈ entry.2, pyEndsWith f ".ipynb" = false) →
        out = ⟨[], [], 0⟩) := by
  rw [spell_check_directory_eq] at h
  rcases hd : dirFold fs dict walk ig with ⟨acc, ig2⟩
  rw [hd] at h
  cases acc with
  | none => simp at h
  | some agg =>
    dsimp only at h
    by_cases hne : agg = []
    · subst hne
      rw [if_neg (by simp)] at h
      have hout : out = ⟨[], [], 0⟩ := by simpa using h.symm
      subst hout
      refine ⟨fun _ => ⟨rfl, rfl⟩, fun h0 => absurd rfl h0, Or.inl rfl, fun _ => rfl⟩
    · rw [if_pos hne] at h
      have hout : out = ⟨agg, agg.map (fun kv => renderLine kv.1 kv.2), 1⟩ := by
        simpa using h.symm
      subst hout
      refine ⟨fun h0 => absurd h0 hne, fun _ => ⟨rfl, List.length_map _ _, rfl⟩,
        Or.inr rfl, fun hno => ?_⟩
      exfalso
      have := dirFold_no_ipynb fs dict walk ig hno
      rw [hd] at this
      have h2 : agg = [] ∧ ig2 = ig := by simpa using this
      exact hne h2.1

theorem spell_check_directory_outcome_witness :
    ((DirOutcome.mk [] [] 0).report = [] →
      (DirOutcome.mk [] [] 0).printed = [] ∧ (DirOutcome.mk [] [] 0).exitCode = 0)
    ∧ ((DirOutcome.mk [] [] 0).report ≠ [] →
        (DirOutcome.mk [] [] 0).printed
          = (DirOutcome.mk [] [] 0).report.map (fun kv => renderLine kv.1 kv.2)
        ∧ (DirOutcome.mk [] [] 0).printed.length
          = (DirOutcome.mk [] [] 0).report.length
        ∧ (DirOutcome.mk [] [] 0).exitCode = 1)
    ∧ ((DirOutcome.mk [] [] 0).exitCode = 0 ∨ (DirOutcome.mk [] [] 0).exitCode = 1)
    ∧ ((∀ entry ∈ [(".", ["notes.md", "setup.txt"])], ∀ f ∈ entry.2,
          pyEndsWith f ".ipynb" = false) →
        DirOutcome.mk [] [] 0 = ⟨[], [], 0⟩) :=
  spell_check_directory_outcome (fun _ => none) (fun _ => false)
    [(".", ["notes.md", "setup.txt"])] [] ⟨[], [], 0⟩ (by decide)

/-- Claim C7: an error raised while opening or parsing a document is caught
by neither function: `spell_check_notebook` surfaces it for the failing
path, and the whole directory traversal dies with no outcome — no partial
report, no printed line, no exit status. -/
theorem parse_errors_propagate (fs : String → Option Notebook)
    (dict : String → Bool) (walk : List (String × List String))
    (ig : List String) (entry : String × List String) (file : String)
    (hentry : entry ∈ walk) (hfile : file ∈ entry.2)
    (hext : pyEndsWith file ".ipynb" = true)
    (herr : fs (os_path_join entry.1 file) = none) :
    (spell_check_notebook fs dict (os_path_join entry.1 file) ig).1 = none
    ∧ (spell_check_directory fs dict walk ig).1 = none := by
  constructor
  · exact (spell_check_notebook_fst_none fs dict _ ig).mpr herr
  · have hdf : (dirFold fs dict walk ig).1 = none := by
      rcases List.append_of_mem hentry with ⟨w1, w2, hw⟩
      subst hw
      unfold dirFold
      rw [List.foldl_append, List.foldl_cons]
      rcases hmid : w1.foldl
          (fun st e => e.2.foldl (walkStep fs dict e.1) st)
          ((some ([] : Report), ig)) with ⟨acc, ig1⟩
      rw [hmid]
      have hfiles := foldl_walkStep_err fs dict entry.1 entry.2 file hfile hext
        herr (acc, ig1)
      rcases hst : entry.2.foldl (walkStep fs dict entry.1) (acc, ig1)
        with ⟨a2, i2⟩
      rw [hst] at hfiles
      cases a2 with
      | none => rw [foldl_entries_none]
      | some a => exact absurd hfiles (by simp)
    rw [spell_check_directory_eq]
    rcases hd : dirFold fs dict walk ig with ⟨acc, ig2⟩
    rw [hd] at hdf
    cases acc with
    | none => rfl
    | some agg => exact absurd hdf (by simp)

theorem parse_errors_propagate_witness :
    (spell_check_notebook (fun _ => (none : Option Notebook)) (fun _ => false)
      (os_path_join "." "a.ipynb") []).1 = none
    ∧ (spell_check_directory (fun _ => (none : Option Notebook)) (fun _ => false)
      [(".", ["a.ipynb"])] []).1 = none :=
  parse_errors_propagate (fun _ => none) (fun _ => false) [(".", ["a.ipynb"])]
    [] (".", ["a.ipynb"]) "a.ipynb" (by decide) (by decide) (by decide) rfl

theorem mem_setKey (d : Report) (k : String) (v : Finset String)
    (pr : String × Finset String) (h : pr ∈ Report.setKey d k v) :
    pr ∈ d ∨ pr = (k, v) := by
  induction d with
  | nil =>
    simp only [Report.setKey] at h
    exact Or.inr (List.mem_singleton.mp h)
  | cons kv d ih =>
    rcases kv with ⟨k0, v0⟩
    simp only [Report.setKey] at h
    by_cases hk : k0 = k
    · rw [if_pos hk] at h
      rcases List.mem_cons.mp h with h | h
      · exact Or.inr (by rw [h, hk])
      · exact Or.inl (List.mem_cons_of_mem _ h)
    · rw [if_neg hk] at h
      rcases List.mem_cons.mp h with h | h
      · exact Or.inl (h ▸ List.mem_cons_self _ _)
      · rcases ih h with h | h
        · exact Or.inl (List.mem_cons_of_mem _ h)
        · exact Or.inr h

theorem mem_updateAll (d other : Report) (pr : String × Finset String)
    (h : pr ∈ Report.updateAll d other) : pr ∈ d ∨ pr ∈ other := by
  induction other generalizing d with
  | nil => exact Or.inl h
  | cons kv other ih =>
    rw [Report.updateAll, List.foldl_cons] at h
    rcases ih (Report.setKey d kv.1 kv.2) h with h | h
    · rcases mem_setKey _ _ _ _ h with h | h
      · exact Or.inl h
      · right
        rw [h]
        exact List.mem_cons_self _ _
    · exact Or.inr (List.mem_cons_of_mem _ h)

theorem spell_check_notebook_entries (fs : String → Option Notebook)
    (dict : String → Bool) (path : String) (ig : List String) (rep : Report)
    (h : (spell_check_notebook fs dict path ig).1 = some rep) :
    ∀ pr ∈ rep, pr.1 = path ∧ hasMisspelling fs dict ig path := by
  intro pr hpr
  cases hfs : fs path with
  | none => simp [spell_check_notebook, load_words, SpellChecker_init, hfs] at h
  | some nb =>
    rw [spell_check_notebook_eq fs dict path ig nb hfs] at h
    injection h with h
    by_cases hcu : cellsUnknown (loadedModel dict ig) nb.cells = ∅
    · rw [hcu, if_pos rfl] at h
      rw [← h] at hpr
      cases hpr
    · rw [if_neg hcu] at h
      rw [← h] at hpr
      have hpr2 := List.mem_singleton.mp hpr
      subst hpr2
      refine ⟨rfl, ?_⟩
      obtain ⟨w, hw⟩ := Finset.nonempty_iff_ne_empty.mpr hcu
      rw [mem_cellsUnknown] at hw
      obtain ⟨c, hc, hw2⟩ := hw
      rw [mem_cellUnknown] at hw2
      obtain ⟨hmd, htok, hkn⟩ := hw2
      rw [loadedModel_known] at hkn
      rcases Bool.or_eq_false_iff.mp hkn with ⟨hdict, hcont⟩
      refine ⟨nb, hfs, c, hc, hmd, w, htok, hdict, fun hmem => ?_⟩
      have helem : ig.contains w = true := List.elem_iff.mpr hmem
      rw [helem] at hcont
      cases hcont

theorem walkStep_good (fs : String → Option Notebook) (dict : String → Bool)
    (ig : List String) (subdir : String) (st : Option Report × List String)
    (file : String) (hsnd : st.2 = ig)
    (hg : ∀ rep, st.1 = some rep → GoodReport fs dict ig rep) :
    ∀ rep, (walkStep fs dict subdir st file).1 = some rep →
      GoodReport fs dict ig rep := by
  rcases st with ⟨acc, ig0⟩
  cases acc with
  | none => intro rep h; cases h
  | some acc =>
    cases hsnd
    intro rep h
    simp only [walkStep] at h
    by_cases hf : pyEndsWith file ".ipynb"
    · rw [if_pos hf] at h
      rcases hr : (spell_check_notebook fs dict (os_path_join subdir file)
          ig0).1 with _ | result
      · rw [hr] at h
        cases h
      · rw [hr] at h
        dsimp only at h
        injection h with h
        intro pr hpr
        rw [← h] at hpr
        by_cases hres : result = []
        · rw [if_neg (by simp [hres])] at hpr
          exact hg acc rfl pr hpr
        · rw [if_pos hres] at hpr
          rcases mem_updateAll _ _ _ hpr with hmem | hmem
          · exact hg acc rfl pr hmem
          · obtain ⟨hfst, hmis⟩ :=
              spell_check_notebook_entries fs dict _ ig0 result hr pr hmem
            rw [hfst]
            exact hmis
    · rw [if_neg hf] at h
      injection h with h
      rw [← h]
      exact hg acc rfl

theorem foldl_walkStep_good (fs : String → Option Notebook)
    (dict : String → Bool) (ig : List String) (subdir : String)
    (files : List String) :
    ∀ st : Option Report × List String, st.2 = ig →
      (∀ rep, st.1 = some rep → GoodReport fs dict ig rep) →
      ∀ rep, (files.foldl (walkStep fs dict subdir) st).1 = some rep →
        GoodReport fs dict ig rep := by
  induction files with
  | nil => intro st _ hg; exact hg
  | cons f files ih =>
    intro st hsnd hg
    rw [List.foldl_cons]
    exact ih _ (by rw [walkStep_snd]; exact hsnd)
      (walkStep_good fs dict ig subdir st f hsnd hg)

theorem foldl_entries_good (fs : String → Option Notebook)
    (dict : String → Bool) (ig : List String)
    (walk : List (String × List String)) :
    ∀ st : Option Report × List String, st.2 = ig →
      (∀ rep, st.1 = some rep → GoodReport fs dict ig rep) →
      ∀ rep, ((walk.foldl
          (fun st e => e.2.foldl (walkStep fs dict e.1) st) st)).1 = some rep →
        GoodReport fs dict ig rep := by
  induction walk with
  | nil => intro st _ hg; exact hg
  | cons e walk ih =>
    intro st hsnd hg
    rw [List.foldl_cons]
    exact ih _ (by rw [foldl_walkStep_snd]; exact hsnd)
      (foldl_walkStep_good fs dict ig e.1 e.2 st hsnd hg)

theorem dirFold_good (fs : String → Option Notebook) (dict : String → Bool)
    (walk : List (String × List String)) (ig : List String) (rep : Report)
    (h : (dirFold fs dict walk ig).1 = some rep) :
    GoodReport fs dict ig rep := by
  refine foldl_entries_good fs dict ig walk (some ([] : Report), ig) rfl
    ?_ rep h
  intro rep0 h0 pr hpr
  injection h0 with h0
  rw [← h0] at hpr
  cases hpr

theorem two_docs_aggregate (dict2 : String → Bool)
    (hhello : dict2 "hello" = true) (hwrold : dict2 "wrold" = false) :
    (spell_check_directory (fun p => if p = "./good.ipynb"
        then some (Notebook.mk [Cell.mk "markdown" "hello"])
        else some (Notebook.mk [Cell.mk "markdown" "wrold"]))
      dict2 [(".", ["good.ipynb", "bad.ipynb"])] []).1
    = some ⟨[("./bad.ipynb", ({"wrold"} : Finset String))],
            ["Misspelled words in ./bad.ipynb: wrold"], 1⟩ := by
  set F : String → Option Notebook := fun p => if p = "./good.ipynb"
    then some (Notebook.mk [Cell.mk "markdown" "hello"])
    else some (Notebook.mk [Cell.mk "markdown" "wrold"]) with hF
  have hfs_g : F (os_path_join "." "good.ipynb")
      = some (Notebook.mk [Cell.mk "markdown" "hello"]) := rfl
  have hfs_b : F (os_path_join "." "bad.ipynb")
      = some (Notebook.mk [Cell.mk "markdown" "wrold"]) := rfl
  have hcu_g : cellsUnknown (loadedModel dict2 [])
      (Notebook.mk [Cell.mk "markdown" "hello"]).cells = ∅ := by
    rw [Finset.eq_empty_iff_forall_not_mem]
    intro w hw
    rw [mem_cellsUnknown] at hw
    obtain ⟨c, hc, hw2⟩ := hw
    rw [List.mem_singleton] at hc
    subst hc
    rw [mem_cellUnknown] at hw2
    obtain ⟨-, htok, hkn⟩ := hw2
    rw [show pySplit ( remove_punctuation "hello") = ["hello"] from rfl,
      List.mem_singleton] at htok
    subst htok
    rw [loadedModel_known, hhello] at hkn
    simp at hkn
  have hcu_b : cellsUnknown (loadedModel dict2 [])
      (Notebook.mk [Cell.mk "markdown" "wrold"]).cells
      = ({"wrold"} : Finset String) := by
    ext w
    rw [mem_cellsUnknown, Finset.mem_singleton]
    constructor
    · rintro ⟨c, hc, hw2⟩
      rw [List.mem_singleton] at hc
      subst hc
      rw [mem_cellUnknown] at hw2
      obtain ⟨-, htok, -⟩ := hw2
      rw [show pySplit ( remove_punctuation "wrold") = ["wrold"] from rfl,
        List.mem_singleton] at htok
      exact htok
    · rintro rfl
      refine ⟨_, List.mem_singleton_self _, ?_⟩
      rw [mem_cellUnknown]
      refine ⟨rfl, ?_, ?_⟩
      · rw [show pySplit ( remove_punctuation "wrold") = ["wrold"] from rfl]
        exact List.mem_singleton_self _
      · rw [loadedModel_known, hwrold]
        rfl
  have hg1 : (spell_check_notebook F dict2 (os_path_join "." "good.ipynb")
      []).1 = some [] := by
    rw [spell_check_notebook_eq F dict2 _ [] _ hfs_g, hcu_g]
    simp
  have hb1 : (spell_check_notebook F dict2 (os_path_join "." "bad.ipynb")
      []).1 = some [("./bad.ipynb", ({"wrold"} : Finset String))] := by
    rw [spell_check_notebook_eq F dict2 _ [] _ hfs_b, hcu_b]
    simp
    rfl
  have hg : spell_check_notebook F dict2 (os_path_join "." "good.ipynb") []
      = (some [], []) :=
    Prod.ext hg1 (spell_check_notebook_snd F dict2 _ [])
  have hb : spell_check_notebook F dict2 (os_path_join "." "bad.ipynb") []
      = (some [("./bad.ipynb", ({"wrold"} : Finset String))], []) :=
    Prod.ext hb1 (spell_check_notebook_snd F dict2 _ [])
  have hstep_g : walkStep F dict2 "."
      ((some ([] : Report), ([] : List String))) "good.ipynb"
      = (some [], []) := by
    simp [walkStep, hg, show pyEndsWith "good.ipynb" ".ipynb" = true from rfl]
  have hstep_b : walkStep F dict2 "."
      ((some ([] : Report), ([] : List String))) "bad.ipynb"
      = (some [("./bad.ipynb", ({"wrold"} : Finset String))], []) := by
    simp [walkStep, hb, show pyEndsWith "bad.ipynb" ".ipynb" = true from rfl,
      Report.updateAll, Report.setKey]
  have hd : dirFold F dict2 [(".", ["good.ipynb", "bad.ipynb"])] []
      = (some [("./bad.ipynb", ({"wrold"} : Finset String))], []) := by
    unfold dirFold
    simp only [List.foldl_cons, List.foldl_nil]
    rw [hstep_g, hstep_b]
  have hline : renderLine "./bad.ipynb" ({"wrold"} : Finset String)
      = "Misspelled words in ./bad.ipynb: wrold" := by
    unfold renderLine
    rw [Finset.sort_singleton]
    rfl
  rw [spell_check_directory_eq, hd]
  simp [hline]

/-- Claim C6: in any reachable aggregate, a document path is a key only if
one of its markdown cells holds a token absent from both the spelling
dictionary and the ignore list; consequently, for a directory with one
misspelled and one clean document, the final aggregate holds exactly the
misspelled path. -/
theorem aggregate_keys_only_misspelled (fs : String → Option Notebook)
    (dict : String → Bool) (walk : List (String × List String))
    (ig : List String) (out : DirOutcome)
    (h : (spell_check_directory fs dict walk ig).1 = some out) :
    (∀ pr ∈ out.report, hasMisspelling fs dict ig pr.1)
    ∧ (∀ dict2 : String → Bool, dict2 "hello" = true → dict2 "wrold" = false →
        (spell_check_directory (fun p => if p = "./good.ipynb"
            then some (Notebook.mk [Cell.mk "markdown" "hello"])
            else some (Notebook.mk [Cell.mk "markdown" "wrold"]))
          dict2 [(".", ["good.ipynb", "bad.ipynb"])] []).1
        = some ⟨[("./bad.ipynb", ({"wrold"} : Finset String))],
                ["Misspelled words in ./bad.ipynb: wrold"], 1⟩) := by
  refine ⟨?_, fun dict2 h1 h2 => two_docs_aggregate dict2 h1 h2⟩
  rw [spell_check_directory_eq] at h
  rcases hd : dirFold fs dict walk ig with ⟨acc, ig2⟩
  rw [hd] at h
  cases acc with
  | none => simp at h
  | some agg =>
    dsimp only at h
    have hgood : GoodReport fs dict ig agg :=
      dirFold_good fs dict walk ig agg (by rw [hd])
    by_cases hne : agg = []
    · subst hne
      rw [if_neg (by simp)] at h
      have hout : out = ⟨[], [], 0⟩ := by simpa using h.symm
      subst hout
      intro pr hpr
      cases hpr
    · rw [if_pos hne] at h
      have hout : out = ⟨agg, agg.map (fun kv => renderLine kv.1 kv.2), 1⟩ := by
        simpa using h.symm
      subst hout
      exact hgood

theorem aggregate_keys_only_misspelled_witness :
    (∀ pr ∈ (DirOutcome.mk [] [] 0).report,
      hasMisspelling (fun _ => (none : Option Notebook)) (fun _ => false) [] pr.1)
    ∧ (∀ dict2 : String → Bool, dict2 "hello" = true → dict2 "wrold" = false →
        (spell_check_directory (fun p => if p = "./good.ipynb"
            then some (Notebook.mk [Cell.mk "markdown" "hello"])
            else some (Notebook.mk [Cell.mk "markdown" "wrold"]))
          dict2 [(".", ["good.ipynb", "bad.ipynb"])] []).1
        = some ⟨[("./bad.ipynb", ({"wrold"} : Finset String))],
                ["Misspelled words in ./bad.ipynb: wrold"], 1⟩) :=
  aggregate_keys_only_misspelled (fun _ => none) (fun _ => false) [] []
    ⟨[], [], 0⟩ rfl
